import Mathlib

/-!
Verification development for `popscle_dsc_pileup_merge_splitted.py`
(aertslab/popscle_helper_tools).

The script merges the sharded output of several `popscle dsc-pileup` runs into
one dataset with a single global droplet-identifier space.  Four procedures are
modelled here, each translated from the corresponding Python function:

* `write_popscle_pileup_cel` — droplet (CEL) table merge: concatenate the
  shards in sorted filename order, tag each row with its partition index, and
  stamp a dense 0-based global `DROPLET_ID` (`pl.concat` + `with_row_count`).
  Polars' `pl.concat` raises `ValueError("cannot concat empty list")` when the
  shard list is empty; this is modelled by the `Except.error` branch.
* `write_popscle_pileup_plp` — SNP-observation (PLP) merge: per shard, tag with
  the partition index and inner-join against the droplet table on
  `(PARTITION, DROPLET_ID_PARTITIONED)`, projecting the joined global id.
* `write_popscle_pileup_umi` — UMI merge: stream raw lines, split off the first
  tab-delimited field (`line.split("\t", 1)[1]`, an `IndexError` when the line
  has no tab, modelled by the failing branch), and emit a running counter.
* `write_popscle_pileup_var` — variant (VAR) reconciliation: keep the shard
  with the most rows, asserting that the boundary row (index
  `candidate.height - 1`, a Python index that may be `-1`) agrees between the
  candidate and any strictly larger shard; the winner's file is copied
  verbatim with `shutil.copy2`.
* `mainRun` — the driver: upfront existence check of the four destination
  files (exit status 1, nothing written, when any exists), then the four
  procedures in order, with the boolean results of the PLP/UMI/VAR procedures
  discarded.

Shard lists are always given in the order produced by `sorted(glob.glob(...))`
(lexicographic filename order); rows are the result of the typed
`pl.read_csv` parse, which is not itself modelled.  Text lines are modelled as
`List Char`.
-/

namespace PopscleMerge

/-- One parsed row of a partial droplet (CEL) table: the renamed
`DROPLET_ID_PARTITIONED` leading column plus the remaining typed columns
(`BARCODE`, `NUM.READ`, `NUM.UMI`, `NUM.UMIwSNP`, `NUM.SNP`). -/
structure CelRow where
  droplet_id_partitioned : Int
  barcode : String
  num_read : Int
  num_umi : Int
  num_umiwsnp : Int
  num_snp : Int
deriving DecidableEq

/-- One row of the merged droplet table before the output projection: the
stamped global `DROPLET_ID` (`with_row_count`, offset 0), the `PARTITION`
column added per shard, and the original parsed row. -/
structure CelFullRow where
  droplet_id : Nat
  partition : Nat
  data : CelRow
deriving DecidableEq

/-- Concatenation of the shards in shard order with each row tagged by its
shard's partition index (the `pl.lit(i).alias("PARTITION")` column), starting
from partition index `i`. -/
def tagShards : Nat → List (List CelRow) → List (CelRow × Nat)
  | _, [] => []
  | i, s :: rest => (s.map fun r => (r, i)) ++ tagShards (i + 1) rest

/-- Stamping of `with_row_count(name="DROPLET_ID", offset=0)` starting at
row index `n`. -/
def stampFrom : Nat → List (CelRow × Nat) → List CelFullRow
  | _, [] => []
  | n, (r, p) :: rest => ⟨n, p, r⟩ :: stampFrom (n + 1) rest

/-- The droplet (CEL) merge `write_popscle_pileup_cel_full_filename`.
`destExists` is the `os.path.exists` test on the destination; `Except.ok none`
models the early `return None`.  With zero discovered shards the call
`pl.concat([])` raises `ValueError("cannot concat empty list")`, modelled by
the `Except.error` branch.  Otherwise the returned data frame is the tagged
concatenation with the stamped global `DROPLET_ID`. -/
def write_popscle_pileup_cel (destExists : Bool) (shards : List (List CelRow)) :
    Except String (Option (List CelFullRow)) :=
  if destExists then Except.ok none
  else if shards.isEmpty then Except.error "cannot concat empty list"
  else Except.ok (some (stampFrom 0 (tagShards 0 shards)))

theorem stampFrom_length (n : Nat) (l : List (CelRow × Nat)) :
    (stampFrom n l).length = l.length := by
  induction l generalizing n with
  | nil => rfl
  | cons a t ih => cases a; simp [stampFrom, ih]

theorem stampFrom_get? (n i : Nat) (l : List (CelRow × Nat)) :
    (stampFrom n l).get? i = (l.get? i).map fun rp => ⟨n + i, rp.2, rp.1⟩ := by
  induction l generalizing n i with
  | nil => simp [stampFrom]
  | cons a t ih =>
    cases a with
    | mk r p =>
      cases i with
      | zero => simp [stampFrom]
      | succ j =>
        have hadd : n + 1 + j = n + (j + 1) := by omega
        show (stampFrom (n + 1) t).get? j = _
        rw [← hadd]
        exact ih (n + 1) j

theorem tagShards_length (i : Nat) (shards : List (List CelRow)) :
    (tagShards i shards).length = (shards.map List.length).sum := by
  induction shards generalizing i with
  | nil => rfl
  | cons s rest ih => simp [tagShards, ih]

/-- C1: for every non-empty, shard-sorted list of droplet shards, the droplet
merge assigns each row a `DROPLET_ID` equal to its 0-based position in the
concatenation of the shards (intra-shard order preserved), so the ids are the
dense, duplicate-free sequence `0..(total_rows - 1)` in concatenation order. -/
theorem cel_global_ids (shards : List (List CelRow)) (h : shards ≠ []) :
    ∃ L, write_popscle_pileup_cel false shards = Except.ok (some L) ∧
      L.length = (shards.map List.length).sum ∧
      ∀ i, i < L.length →
        ∃ rp, (tagShards 0 shards).get? i = some rp ∧
          L.get? i = some ⟨i, rp.2, rp.1⟩ := by
  refine ⟨stampFrom 0 (tagShards 0 shards), ?_, ?_, ?_⟩
  · cases shards with
    | nil => exact absurd rfl h
    | cons s rest => rfl
  · rw [stampFrom_length, tagShards_length]
  · intro i hi
    rw [stampFrom_length, tagShards_length] at hi
    have hlen : i < (tagShards 0 shards).length := by
      rw [tagShards_length]; exact hi
    refine ⟨(tagShards 0 shards).get ⟨i, hlen⟩, List.get?_eq_get hlen, ?_⟩
    rw [stampFrom_get?, List.get?_eq_get hlen]
    simp

/-- Sample droplet row used by concrete witnesses. -/
def sampleCelRow (pid : Int) (bc : String) : CelRow :=
  ⟨pid, bc, 1, 1, 1, 1⟩

/-- The spec's concrete scenario: three droplet shards with 2, 3 and 1 rows. -/
def sampleCelShards : List (List CelRow) :=
  [[sampleCelRow 0 "AAA", sampleCelRow 1 "AAC"],
   [sampleCelRow 0 "AAG", sampleCelRow 1 "AAT", sampleCelRow 2 "ACA"],
   [sampleCelRow 0 "ACC"]]

/-- Witness for `cel_global_ids` at the spec's three-shard scenario. -/
theorem cel_global_ids_witness :
    ∃ L, write_popscle_pileup_cel false sampleCelShards = Except.ok (some L) ∧
      L.length = (sampleCelShards.map List.length).sum ∧
      ∀ i, i < L.length →
        ∃ rp, (tagShards 0 sampleCelShards).get? i = some rp ∧
          L.get? i = some ⟨i, rp.2, rp.1⟩ :=
  cel_global_ids sampleCelShards (by decide)

/-- One parsed row of a partial SNP-observation (PLP) table: the renamed
`DROPLET_ID_PARTITIONED` leading column plus `SNP_ID`, `ALLELES`, `BASEQS`. -/
structure PlpRow where
  droplet_id_partitioned : Int
  snp_id : Int
  alleles : String
  baseqs : String
deriving DecidableEq

/-- One output row of the merged PLP table: the joined global `DROPLET_ID`
(written back under the original leading-column name) plus the observation
columns. -/
structure PlpOutRow where
  droplet_id : Nat
  snp_id : Int
  alleles : String
  baseqs : String
deriving DecidableEq

/-- The join predicate of the PLP merge: a droplet-table row matches partition
index `part` and partition-local droplet id `pid`
(`on=["PARTITION", "DROPLET_ID_PARTITIONED"]`). -/
def pairMatch (part : Nat) (pid : Int) (c : CelFullRow) : Bool :=
  c.partition == part && c.data.droplet_id_partitioned == pid

/-- Inner join of one tagged PLP row against the droplet table: one output row
per matching droplet-table row, projected to
`(DROPLET_ID, SNP_ID, ALLELES, BASEQS)`. -/
def plpJoinOne (cel : List CelFullRow) (part : Nat) (r : PlpRow) : List PlpOutRow :=
  (cel.filter (pairMatch part r.droplet_id_partitioned)).map
    fun c => ⟨c.droplet_id, r.snp_id, r.alleles, r.baseqs⟩

/-- Inner join of one whole PLP shard (tagged with partition `part`) against
the droplet table. -/
def plpJoinShard (cel : List CelFullRow) (part : Nat) (rows : List PlpRow) :
    List PlpOutRow :=
  rows.flatMap (plpJoinOne cel part)

/-- Shard-by-shard loop of the PLP merge starting at partition index `i`; the
per-shard joined output is appended to the output stream. -/
def plpGo (cel : List CelFullRow) : Nat → List (List PlpRow) → List PlpOutRow
  | _, [] => []
  | i, s :: rest => plpJoinShard cel i s ++ plpGo cel (i + 1) rest

/-- The SNP-observation (PLP) merge `write_popscle_pileup_plp_full_filename`:
`none` models the `return False` when the destination already exists. -/
def write_popscle_pileup_plp (destExists : Bool) (cel : List CelFullRow)
    (shards : List (List PlpRow)) : Option (List PlpOutRow) :=
  if destExists then none else some (plpGo cel 0 shards)

/-- The correction table described by the spec: the global droplet id recorded
for the pair (partition, partitioned droplet id), if any.  This definition
follows the spec's words (a keyed lookup) and is compared with the join-based
implementation above. -/
def correctionLookup (cel : List CelFullRow) (part : Nat) (pid : Int) : Option Nat :=
  (cel.find? (pairMatch part pid)).map CelFullRow.droplet_id

/-- Spec-side PLP merge: emit exactly the input rows whose pair occurs in the
correction table, each with the leading column rewritten to the recorded
global id; rows with an absent pair are dropped. -/
def plpSpecGo (cel : List CelFullRow) : Nat → List (List PlpRow) → List PlpOutRow
  | _, [] => []
  | i, s :: rest =>
    (s.filterMap fun r =>
      (correctionLookup cel i r.droplet_id_partitioned).map
        fun g => ⟨g, r.snp_id, r.alleles, r.baseqs⟩) ++ plpSpecGo cel (i + 1) rest

/-- Uniqueness of the pair (partition, partitioned droplet id) across the
droplet table. -/
def UniquePairs (cel : List CelFullRow) : Prop :=
  cel.Pairwise fun a b =>
    ¬(a.partition = b.partition ∧
      a.data.droplet_id_partitioned = b.data.droplet_id_partitioned)

instance (cel : List CelFullRow) : Decidable (UniquePairs cel) := by
  unfold UniquePairs
  infer_instance

theorem pairMatch_iff (part : Nat) (pid : Int) (c : CelFullRow) :
    pairMatch part pid c = true ↔
      c.partition = part ∧ c.data.droplet_id_partitioned = pid := by
  simp [pairMatch]

theorem filter_pairMatch_of_unique (cel : List CelFullRow) (h : UniquePairs cel)
    (part : Nat) (pid : Int) :
    cel.filter (pairMatch part pid) = (cel.find? (pairMatch part pid)).toList := by
  induction cel with
  | nil => rfl
  | cons c t ih =>
    obtain ⟨hc, ht⟩ := List.pairwise_cons.mp h
    cases hp : pairMatch part pid c with
    | true =>
      have hfil : t.filter (pairMatch part pid) = [] := by
        refine List.filter_eq_nil_iff.mpr fun x hx hpx => ?_
        obtain ⟨h1, h2⟩ := (pairMatch_iff part pid c).mp hp
        obtain ⟨h3, h4⟩ := (pairMatch_iff part pid x).mp hpx
        exact hc x hx ⟨h1.trans h3.symm, h2.trans h4.symm⟩
      rw [List.filter_cons_of_pos hp, List.find?_cons_of_pos _ hp, hfil]
      rfl
    | false =>
      rw [List.filter_cons_of_neg (by simp [hp]),
        List.find?_cons_of_neg _ (by simp [hp])]
      exact ih ht

theorem plpJoinOne_eq (cel : List CelFullRow) (h : UniquePairs cel) (part : Nat)
    (r : PlpRow) :
    plpJoinOne cel part r =
      ((correctionLookup cel part r.droplet_id_partitioned).map
        fun g => (⟨g, r.snp_id, r.alleles, r.baseqs⟩ : PlpOutRow)).toList := by
  unfold plpJoinOne correctionLookup
  rw [filter_pairMatch_of_unique cel h]
  cases cel.find? (pairMatch part r.droplet_id_partitioned) <;> simp

theorem plpGo_eq_spec (cel : List CelFullRow) (h : UniquePairs cel) (i : Nat)
    (shards : List (List PlpRow)) :
    plpGo cel i shards = plpSpecGo cel i shards := by
  induction shards generalizing i with
  | nil => rfl
  | cons s rest ih =>
    unfold plpGo plpSpecGo plpJoinShard
    rw [ih (i + 1)]
    congr 1
    induction s with
    | nil => rfl
    | cons r rs ihs =>
      rw [List.flatMap_cons, List.filterMap_cons, plpJoinOne_eq cel h]
      cases correctionLookup cel i r.droplet_id_partitioned <;> simp [ihs]

/-- C2: when the pair (partition, partitioned droplet id) is unique in the
droplet table, the PLP merge emits exactly the input rows whose pair occurs in
the droplet table, each with its leading column rewritten to the global id
recorded for that pair; rows whose pair is absent never appear. -/
theorem plp_join_spec (cel : List CelFullRow) (shards : List (List PlpRow))
    (h : UniquePairs cel) :
    write_popscle_pileup_plp false cel shards = some (plpSpecGo cel 0 shards) := by
  simp [write_popscle_pileup_plp, plpGo_eq_spec cel h 0 shards]

/-- The merged droplet table of the spec's three-shard scenario (global ids
0..5 over partitions 0, 1, 2). -/
def sampleCelFull : List CelFullRow :=
  stampFrom 0 (tagShards 0 sampleCelShards)

/-- Sample PLP shards: the shard-1 row with partitioned id 2 must join to the
global id 4 recorded for (partition 1, partitioned id 2); the row with
partitioned id 7 has no match and is dropped. -/
def samplePlpShards : List (List PlpRow) :=
  [[⟨0, 10, "A", "F"⟩], [⟨2, 11, "C", "F"⟩, ⟨7, 12, "G", "F"⟩], []]

/-- Witness for `plp_join_spec` at the spec's concrete scenario. -/
theorem plp_join_spec_witness :
    write_popscle_pileup_plp false sampleCelFull samplePlpShards =
      some (plpSpecGo sampleCelFull 0 samplePlpShards) :=
  plp_join_spec sampleCelFull samplePlpShards (by decide)

/-- One parsed row of a partial variant (VAR) table (leading column renamed to
`SNP_ID`). -/
structure VarRow where
  snp_id : Int
  chrom : String
  pos : Int
  ref : String
  alt : String
  af : String
deriving DecidableEq

/-- One discovered variant shard: the raw bytes of the compressed file (what
`shutil.copy2` copies) together with the rows parsed from it by
`pl.read_csv`. -/
structure VarShard where
  raw : String
  rows : List VarRow
deriving DecidableEq

/-- The message of the prefix-consistency assertion. -/
def varAssertMsg : String :=
  "SNP_IDs do not match between different popscle dsc pileup var files."

/-- Python row indexing `df[i]` for a possibly negative `i` (a negative index
counts from the end; the script only ever uses `i = height - 1 ≥ -1`); `none`
models the out-of-bounds error raised by the frame. -/
def pyRowAt (rows : List VarRow) (i : Int) : Option VarRow :=
  if i < 0 then
    if 0 ≤ i + rows.length then rows.get? (i + rows.length).toNat else none
  else rows.get? i.toNat

/-- The candidate loop of `write_popscle_pileup_var_full_filename`: keep the
first shard, then replace the candidate by any strictly larger shard after
asserting that the row at Python index `candidate.height - 1` agrees (all
fields, via the `to_struct` comparison) between the two frames.  A failed
assertion (`Except.error varAssertMsg`) or an out-of-bounds row access aborts
the run; shards that are not strictly larger are skipped without comparison. -/
def varPick : Option VarShard → List VarShard → Except String (Option VarShard)
  | cand, [] => Except.ok cand
  | none, s :: rest => varPick (some s) rest
  | some c, s :: rest =>
    if c.rows.length < s.rows.length then
      match pyRowAt c.rows ((c.rows.length : Int) - 1),
          pyRowAt s.rows ((c.rows.length : Int) - 1) with
      | some r1, some r2 =>
        if r1 = r2 then varPick (some s) rest else Except.error varAssertMsg
      | _, _ => Except.error "row index out of bounds"
    else varPick (some c) rest

/-- The variant (VAR) reconciliation `write_popscle_pileup_var_full_filename`:
returns the Python boolean result together with the raw bytes copied verbatim
to the destination by `shutil.copy2`, if any.  With no winning shard nothing
is copied and `False` is returned. -/
def write_popscle_pileup_var (destExists : Bool) (shards : List VarShard) :
    Except String (Bool × Option String) :=
  if destExists then Except.ok (false, none)
  else
    match varPick none shards with
    | Except.error e => Except.error e
    | Except.ok none => Except.ok (false, none)
    | Except.ok (some w) => Except.ok (true, some w.raw)

theorem varPick_ok_spec (rest : List VarShard) (c w : VarShard)
    (h : varPick (some c) rest = Except.ok (some w)) :
    c.rows.length ≤ w.rows.length ∧
      (∀ s ∈ rest, s.rows.length ≤ w.rows.length) ∧
      (w = c ∨ ∃ pre post, rest = pre ++ w :: post ∧
        c.rows.length < w.rows.length ∧
        ∀ s ∈ pre, s.rows.length < w.rows.length) := by
  induction rest generalizing c with
  | nil =>
    simp only [varPick, Except.ok.injEq, Option.some.injEq] at h
    subst h
    exact ⟨le_refl _, by simp, Or.inl rfl⟩
  | cons s rest ih =>
    simp only [varPick] at h
    by_cases hlen : c.rows.length < s.rows.length
    · rw [if_pos hlen] at h
      cases hr1 : pyRowAt c.rows ((c.rows.length : Int) - 1) with
      | none =>
        rw [hr1] at h
        cases hr2 : pyRowAt s.rows ((c.rows.length : Int) - 1) <;>
          (rw [hr2] at h; simp at h)
      | some r1 =>
        cases hr2 : pyRowAt s.rows ((c.rows.length : Int) - 1) with
        | none => rw [hr1, hr2] at h; simp at h
        | some r2 =>
          rw [hr1, hr2] at h
          by_cases hr : r1 = r2
          · rw [show (match some r1, some r2 with
                | some a, some b =>
                  if a = b then varPick (some s) rest else Except.error varAssertMsg
                | _, _ =>
                  Except.error "row index out of bounds") =
                if r1 = r2 then varPick (some s) rest
                else Except.error varAssertMsg from rfl, if_pos hr] at h
            obtain ⟨h1, h2, h3⟩ := ih s h
            refine ⟨le_of_lt (lt_of_lt_of_le hlen h1), ?_, ?_⟩
            · intro t ht
              rcases List.mem_cons.mp ht with rfl | ht
              · exact h1
              · exact h2 t ht
            · right
              rcases h3 with rfl | ⟨pre, post, hsplit, hlt2, hpre⟩
              · exact ⟨[], rest, rfl, lt_of_lt_of_le hlen h1, by simp⟩
              · refine ⟨s :: pre, post, by rw [hsplit]; rfl, ?_, ?_⟩
                · exact lt_of_lt_of_le hlen h1
                · intro t ht
                  rcases List.mem_cons.mp ht with rfl | ht
                  · exact hlt2
                  · exact hpre t ht
          · rw [show (match some r1, some r2 with
                | some a, some b =>
                  if a = b then varPick (some s) rest else Except.error varAssertMsg
                | _, _ =>
                  Except.error "row index out of bounds") =
                if r1 = r2 then varPick (some s) rest
                else Except.error varAssertMsg from rfl, if_neg hr] at h
            simp at h
    · rw [if_neg hlen] at h
      obtain ⟨h1, h2, h3⟩ := ih c h
      have hs : s.rows.length ≤ w.rows.length :=
        le_trans (le_of_not_lt hlen) h1
      refine ⟨h1, ?_, ?_⟩
      · intro t ht
        rcases List.mem_cons.mp ht with rfl | ht
        · exact hs
        · exact h2 t ht
      · rcases h3 with rfl | ⟨pre, post, hsplit, hlt2, hpre⟩
        · exact Or.inl rfl
        · refine Or.inr ⟨s :: pre, post, by rw [hsplit]; rfl, hlt2, ?_⟩
          intro t ht
          rcases List.mem_cons.mp ht with rfl | ht
          · exact lt_of_le_of_lt (le_of_not_lt hlen) hlt2
          · exact hpre t ht

theorem varPick_mem (shards : List VarShard) (w : VarShard)
    (h : varPick none shards = Except.ok (some w)) : w ∈ shards := by
  cases shards with
  | nil => simp [varPick] at h
  | cons s0 rest =>
    obtain ⟨_, _, h3⟩ := varPick_ok_spec rest s0 w h
    rcases h3 with rfl | ⟨pre, post, hsplit, _, _⟩
    · exact List.mem_cons_self _ _
    · rw [hsplit]
      simp

/-- C3: when the variant reconciliation terminates with a winning shard, that
shard has the maximum row count among all shards, and among shards sharing
that maximum it is the one encountered first in sort order (every earlier
shard has strictly fewer rows). -/
theorem var_pick_max (shards : List VarShard) (w : VarShard)
    (h : varPick none shards = Except.ok (some w)) :
    w ∈ shards ∧ (∀ s ∈ shards, s.rows.length ≤ w.rows.length) ∧
      ∃ pre post, shards = pre ++ w :: post ∧
        ∀ s ∈ pre, s.rows.length < w.rows.length := by
  cases shards with
  | nil => simp [varPick] at h
  | cons s0 rest =>
    obtain ⟨h1, h2, h3⟩ := varPick_ok_spec rest s0 w h
    rcases h3 with rfl | ⟨pre, post, hsplit, hlt, hpre⟩
    · refine ⟨List.mem_cons_self _ _, ?_, [], rest, rfl, by simp⟩
      intro s hs
      rcases List.mem_cons.mp hs with rfl | hs
      · exact le_refl _
      · exact h2 s hs
    · subst hsplit
      refine ⟨by simp, ?_, s0 :: pre, post, rfl, ?_⟩
      · intro s hs
        rcases List.mem_cons.mp hs with rfl | hs
        · exact h1
        · exact h2 s hs
      · intro s hs
        rcases List.mem_cons.mp hs with rfl | hs
        · exact hlt
        · exact hpre s hs

/-- Sample variant rows and shards used by concrete witnesses; shard B extends
shard A by one row, so B wins the reconciliation. -/
def sampleVarRowA : VarRow := ⟨0, "chr1", 100, "A", "C", "0.1"⟩

def sampleVarRowB : VarRow := ⟨1, "chr1", 200, "G", "T", "0.2"⟩

def sampleVarA : VarShard := ⟨"varA-bytes", [sampleVarRowA]⟩

def sampleVarB : VarShard := ⟨"varB-bytes", [sampleVarRowA, sampleVarRowB]⟩

/-- Witness for `var_pick_max` on two consistent shards of 1 and 2 rows. -/
theorem var_pick_max_witness :
    sampleVarB ∈ [sampleVarA, sampleVarB] ∧
      (∀ s ∈ [sampleVarA, sampleVarB], s.rows.length ≤ sampleVarB.rows.length) ∧
      ∃ pre post, [sampleVarA, sampleVarB] = pre ++ sampleVarB :: post ∧
        ∀ s ∈ pre, s.rows.length < sampleVarB.rows.length :=
  var_pick_max [sampleVarA, sampleVarB] sampleVarB (by rfl)

/-- C4: with a non-empty current candidate, a subsequent shard whose row count
does not exceed the candidate's triggers no comparison, while a strictly
larger shard is compared at row position `candidate.row_count - 1`: the run
continues with the larger shard as candidate exactly when that boundary row
agrees, and aborts with the uncaught assertion failure exactly when it
differs. -/
theorem var_boundary_check (c s : VarShard) (rest : List VarShard)
    (hc : c.rows ≠ []) :
    (s.rows.length ≤ c.rows.length →
      varPick (some c) (s :: rest) = varPick (some c) rest) ∧
    (c.rows.length < s.rows.length →
      ∃ r1 r2, c.rows.get? (c.rows.length - 1) = some r1 ∧
        s.rows.get? (c.rows.length - 1) = some r2 ∧
        (r1 = r2 → varPick (some c) (s :: rest) = varPick (some s) rest) ∧
        (r1 ≠ r2 → varPick (some c) (s :: rest) = Except.error varAssertMsg)) := by
  constructor
  · intro hle
    have hnlt : ¬ c.rows.length < s.rows.length := not_lt.mpr hle
    simp only [varPick, if_neg hnlt]
  · intro hlt
    obtain ⟨k, hk⟩ : ∃ k, c.rows.length = k + 1 := by
      cases hcl : c.rows with
      | nil => exact absurd hcl hc
      | cons a t => exact ⟨t.length, by simp [hcl]⟩
    have hkc : k < c.rows.length := by omega
    have hks : k < s.rows.length := by omega
    have hpos : ¬ ((c.rows.length : Int) - 1 < 0) := by omega
    have htn : ((c.rows.length : Int) - 1).toNat = k := by omega
    have hr1 : pyRowAt c.rows ((c.rows.length : Int) - 1) =
        some (c.rows.get ⟨k, hkc⟩) := by
      unfold pyRowAt
      rw [if_neg hpos, htn]
      exact List.get?_eq_get hkc
    have hr2 : pyRowAt s.rows ((c.rows.length : Int) - 1) =
        some (s.rows.get ⟨k, hks⟩) := by
      unfold pyRowAt
      rw [if_neg hpos, htn]
      exact List.get?_eq_get hks
    have hnat : c.rows.length - 1 = k := by omega
    refine ⟨c.rows.get ⟨k, hkc⟩, s.rows.get ⟨k, hks⟩, ?_, ?_, ?_, ?_⟩
    · rw [hnat]; exact List.get?_eq_get hkc
    · rw [hnat]; exact List.get?_eq_get hks
    · intro hr
      simp only [varPick, if_pos hlt]
      rw [hr1, hr2]
      show (if c.rows.get ⟨k, hkc⟩ = s.rows.get ⟨k, hks⟩ then
          varPick (some s) rest else Except.error varAssertMsg) = _
      rw [if_pos hr]
    · intro hr
      simp only [varPick, if_pos hlt]
      rw [hr1, hr2]
      show (if c.rows.get ⟨k, hkc⟩ = s.rows.get ⟨k, hks⟩ then
          varPick (some s) rest else Except.error varAssertMsg) = _
      rw [if_neg hr]

/-- Witness for `var_boundary_check` at the two sample shards. -/
theorem var_boundary_check_witness :
    (sampleVarB.rows.length ≤ sampleVarA.rows.length →
      varPick (some sampleVarA) [sampleVarB] = varPick (some sampleVarA) []) ∧
    (sampleVarA.rows.length < sampleVarB.rows.length →
      ∃ r1 r2,
        sampleVarA.rows.get? (sampleVarA.rows.length - 1) = some r1 ∧
        sampleVarB.rows.get? (sampleVarA.rows.length - 1) = some r2 ∧
        (r1 = r2 →
          varPick (some sampleVarA) [sampleVarB] = varPick (some sampleVarB) []) ∧
        (r1 ≠ r2 →
          varPick (some sampleVarA) [sampleVarB] = Except.error varAssertMsg)) :=
  var_boundary_check sampleVarA sampleVarB [] (by decide)

/-- C8: whatever the variant reconciliation writes to the destination is the
raw file content of the winning shard, copied verbatim with no
re-serialization. -/
theorem var_copy_verbatim (shards : List VarShard) (content : String)
    (h : write_popscle_pileup_var false shards = Except.ok (true, some content)) :
    ∃ w, varPick none shards = Except.ok (some w) ∧ w ∈ shards ∧
      content = w.raw := by
  have h' : (match varPick none shards with
      | Except.error e => Except.error e
      | Except.ok none => Except.ok (false, none)
      | Except.ok (some w) => Except.ok (true, some w.raw)) =
      Except.ok ((true, some content) : Bool × Option String) := h
  cases hv : varPick none shards with
  | error e => rw [hv] at h'; simp at h'
  | ok o =>
    cases o with
    | none => rw [hv] at h'; simp at h'
    | some w =>
      rw [hv] at h'
      simp only [Except.ok.injEq, Prod.mk.injEq, Option.some.injEq] at h'
      exact ⟨w, rfl, varPick_mem shards w hv, h'.2.symm⟩

/-- Witness for `var_copy_verbatim`: shard B's bytes are what gets written. -/
theorem var_copy_verbatim_witness :
    ∃ w, varPick none [sampleVarA, sampleVarB] = Except.ok (some w) ∧
      w ∈ [sampleVarA, sampleVarB] ∧ sampleVarB.raw = w.raw :=
  var_copy_verbatim [sampleVarA, sampleVarB] sampleVarB.raw (by rfl)

/-- A raw text line of a UMI table, modelled as its character sequence
(trailing newline included, as produced by iterating over the file handle). -/
abbrev Line := List Char

/-- Python's `line.split("\t", 1)`: the part before the first tab character
and the untouched remainder after it; `none` when the line has no tab, in
which case indexing `[1]` into the one-element split raises `IndexError`. -/
def splitFirstTab : Line → Option (Line × Line)
  | [] => none
  | ch :: cs =>
    if ch = '\t' then some ([], cs)
    else
      match splitFirstTab cs with
      | none => none
      | some (a, b) => some (ch :: a, b)

/-- One emitted UMI line: `print(str(line_count), remainder, sep="\t",
end="")`. -/
def umiOutLine (n : Nat) (rest : Line) : Line :=
  (toString n).data ++ '\t' :: rest

/-- The per-line loop of the UMI merge over a flat list of lines, carrying
`line_count`: returns the emitted lines, the final counter, and whether the
loop completed (`false` models the uncaught `IndexError` on a tab-less line,
which stops the run with the lines so far already written). -/
def umiLines : Nat → List Line → List Line × Nat × Bool
  | n, [] => ([], n, true)
  | n, l :: ls =>
    match splitFirstTab l with
    | none => ([], n, false)
    | some (_, rest) =>
      let r := umiLines (n + 1) ls
      (umiOutLine n rest :: r.1, r.2)

/-- The shard loop of `write_popscle_pileup_umi_full_filename`: shards are
streamed in sorted order and `line_count` is never reset between shards. -/
def umiShardsGo : Nat → List (List Line) → List Line × Nat × Bool
  | n, [] => ([], n, true)
  | n, s :: rest =>
    let r := umiLines n s
    if r.2.2 then
      let r2 := umiShardsGo r.2.1 rest
      (r.1 ++ r2.1, r2.2)
    else (r.1, r.2.1, false)

/-- The UMI merge `write_popscle_pileup_umi_full_filename`: `none` models the
`return False` when the destination already exists; otherwise the emitted
lines together with the completion flag. -/
def write_popscle_pileup_umi (destExists : Bool) (shards : List (List Line)) :
    Option (List Line × Bool) :=
  if destExists then none
  else some ((umiShardsGo 0 shards).1, (umiShardsGo 0 shards).2.2)

theorem umiLines_append (n : Nat) (a b : List Line) :
    umiLines n (a ++ b) =
      if (umiLines n a).2.2 then
        ((umiLines n a).1 ++ (umiLines (umiLines n a).2.1 b).1,
          (umiLines (umiLines n a).2.1 b).2)
      else ((umiLines n a).1, (umiLines n a).2.1, false) := by
  induction a generalizing n with
  | nil => simp [umiLines]
  | cons l ls ih =>
    cases hsp : splitFirstTab l with
    | none => simp [umiLines, hsp]
    | some p =>
      cases p with
      | mk hd rest =>
        by_cases hok : (umiLines (n + 1) ls).2.2 = true
        · simp [umiLines, hsp, ih (n + 1), hok]
        · simp only [Bool.not_eq_true] at hok
          simp [umiLines, hsp, ih (n + 1), hok]

theorem umiShardsGo_eq (n : Nat) (shards : List (List Line)) :
    umiShardsGo n shards = umiLines n shards.flatten := by
  induction shards generalizing n with
  | nil => rfl
  | cons s rest ih =>
    rw [List.flatten_cons, umiLines_append]
    by_cases hok : (umiLines n s).2.2 = true
    · simp [umiShardsGo, hok, ih]
    · simp only [Bool.not_eq_true] at hok
      simp [umiShardsGo, hok]

theorem umiLines_ok_iff (n : Nat) (ls : List Line) :
    (umiLines n ls).2.2 = true ↔ ∀ l ∈ ls, (splitFirstTab l).isSome := by
  induction ls generalizing n with
  | nil => simp [umiLines]
  | cons l t ih =>
    cases hsp : splitFirstTab l with
    | none => simp [umiLines, hsp]
    | some p =>
      cases p with
      | mk hd rest => simp [umiLines, hsp, ih (n + 1)]

theorem umiLines_length (n : Nat) (ls : List Line) :
    (umiLines n ls).1.length =
      (ls.takeWhile fun l => (splitFirstTab l).isSome).length := by
  induction ls generalizing n with
  | nil => rfl
  | cons l t ih =>
    cases hsp : splitFirstTab l with
    | none => simp [umiLines, hsp, List.takeWhile_cons]
    | some p =>
      cases p with
      | mk hd rest => simp [umiLines, hsp, List.takeWhile_cons, ih (n + 1)]

theorem umiLines_get? (ls : List Line) : ∀ n i : Nat,
    (∀ l ∈ ls, (splitFirstTab l).isSome) → i < ls.length →
    ∃ l hd rest, ls.get? i = some l ∧ splitFirstTab l = some (hd, rest) ∧
      (umiLines n ls).1.get? i = some (umiOutLine (n + i) rest) := by
  induction ls with
  | nil => intro n i _ hi; simp at hi
  | cons l t ih =>
    intro n i h hi
    have hl : (splitFirstTab l).isSome := h l (List.mem_cons_self _ _)
    obtain ⟨p, hp⟩ := Option.isSome_iff_exists.mp hl
    cases p with
    | mk hd rest =>
      cases i with
      | zero =>
        refine ⟨l, hd, rest, rfl, hp, ?_⟩
        simp [umiLines, hp]
      | succ j =>
        have hj : j < t.length := by simpa using hi
        obtain ⟨l', hd', rest', h1, h2, h3⟩ :=
          ih (n + 1) j (fun x hx => h x (List.mem_cons_of_mem _ hx)) hj
        refine ⟨l', hd', rest', by simpa using h1, h2, ?_⟩
        have hadd : n + 1 + j = n + (j + 1) := by omega
        rw [← hadd]
        simpa [umiLines, hp] using h3

theorem takeWhile_all {α : Type} (p : α → Bool) (ls : List α)
    (h : ∀ l ∈ ls, p l = true) : ls.takeWhile p = ls := by
  induction ls with
  | nil => rfl
  | cons a t ih =>
    rw [List.takeWhile_cons, if_pos (h a (List.mem_cons_self _ _)),
      ih fun x hx => h x (List.mem_cons_of_mem _ hx)]

theorem takeWhile_lt {α : Type} (p : α → Bool) (ls : List α)
    (h : ∃ l ∈ ls, ¬ p l = true) : (ls.takeWhile p).length < ls.length := by
  induction ls with
  | nil => obtain ⟨l, hl, _⟩ := h; simp at hl
  | cons a t ih =>
    by_cases hpa : p a = true
    · rw [List.takeWhile_cons, if_pos hpa]
      have hex : ∃ l ∈ t, ¬ p l = true := by
        obtain ⟨l, hl, hnl⟩ := h
        rcases List.mem_cons.mp hl with rfl | hl
        · exact absurd hpa hnl
        · exact ⟨l, hl, hnl⟩
      simpa using ih hex
    · rw [List.takeWhile_cons, if_neg hpa]
      simp

/-- C7: when every line of every UMI shard contains a tab, the merge emits one
line per input line across the shards in order, replacing the leading
tab-delimited field by a counter that starts at 0 and increments by one per
emitted line across the whole concatenation, with the remainder of each line
unchanged. -/
theorem umi_running_counter (shards : List (List Line))
    (h : ∀ l ∈ shards.flatten, (splitFirstTab l).isSome) :
    ∃ out, write_popscle_pileup_umi false shards = some (out, true) ∧
      out.length = shards.flatten.length ∧
      ∀ i, i < shards.flatten.length →
        ∃ l hd rest, shards.flatten.get? i = some l ∧
          splitFirstTab l = some (hd, rest) ∧
          out.get? i = some (umiOutLine i rest) := by
  have hok : (umiShardsGo 0 shards).2.2 = true := by
    rw [umiShardsGo_eq]
    exact (umiLines_ok_iff 0 shards.flatten).mpr h
  refine ⟨(umiShardsGo 0 shards).1, by simp [write_popscle_pileup_umi, hok], ?_, ?_⟩
  · rw [umiShardsGo_eq, umiLines_length, takeWhile_all _ _ h]
  · intro i hi
    obtain ⟨l, hd, rest, h1, h2, h3⟩ := umiLines_get? shards.flatten 0 i h hi
    refine ⟨l, hd, rest, h1, h2, ?_⟩
    rw [umiShardsGo_eq]
    simpa using h3

/-- Sample UMI shards whose lines all contain a tab. -/
def sampleUmiShards : List (List Line) :=
  [[['a', '\t', 'x', '\n'], ['b', '\t', 'y', '\n']], [['c', '\t', 'z', '\n']]]

/-- Witness for `umi_running_counter` on two shards of 2 and 1 lines. -/
theorem umi_running_counter_witness :
    ∃ out, write_popscle_pileup_umi false sampleUmiShards = some (out, true) ∧
      out.length = sampleUmiShards.flatten.length ∧
      ∀ i, i < sampleUmiShards.flatten.length →
        ∃ l hd rest, sampleUmiShards.flatten.get? i = some l ∧
          splitFirstTab l = some (hd, rest) ∧
          out.get? i = some (umiOutLine i rest) :=
  umi_running_counter sampleUmiShards (by decide)

/-- C10: a UMI shard line with no tab character makes the merge abort with an
uncaught indexing error: the lines before the first tab-less line are the
whole emitted output (that line is neither emitted nor skipped and the merge
does not complete). -/
theorem umi_missing_tab_aborts (shards : List (List Line))
    (h : ∃ l ∈ shards.flatten, splitFirstTab l = none) :
    ∃ out, write_popscle_pileup_umi false shards = some (out, false) ∧
      out.length =
        (shards.flatten.takeWhile fun l => (splitFirstTab l).isSome).length ∧
      out.length < shards.flatten.length := by
  have hnall : ¬ ∀ l ∈ shards.flatten, (splitFirstTab l).isSome := by
    obtain ⟨l, hl, hnone⟩ := h
    intro hall
    have hsome := hall l hl
    rw [hnone] at hsome
    simp at hsome
  have hok : (umiShardsGo 0 shards).2.2 = false := by
    rw [umiShardsGo_eq]
    cases hb : (umiLines 0 shards.flatten).2.2
    · rfl
    · exact absurd ((umiLines_ok_iff 0 shards.flatten).mp hb) hnall
  refine ⟨(umiShardsGo 0 shards).1,
    by simp [write_popscle_pileup_umi, hok], ?_, ?_⟩
  · rw [umiShardsGo_eq, umiLines_length]
  · rw [umiShardsGo_eq, umiLines_length]
    apply takeWhile_lt
    obtain ⟨l, hl, hnone⟩ := h
    exact ⟨l, hl, by simp [hnone]⟩

/-- Sample UMI shards whose second line has no tab. -/
def sampleUmiBad : List (List Line) :=
  [[['a', '\t', 'x', '\n'], ['b', 'c', '\n']]]

/-- Witness for `umi_missing_tab_aborts` at a shard with a tab-less line. -/
theorem umi_missing_tab_aborts_witness :
    ∃ out, write_popscle_pileup_umi false sampleUmiBad = some (out, false) ∧
      out.length =
        (sampleUmiBad.flatten.takeWhile fun l => (splitFirstTab l).isSome).length ∧
      out.length < sampleUmiBad.flatten.length :=
  umi_missing_tab_aborts sampleUmiBad (by decide)

/-- The four table kinds handled by the merge. -/
inductive TableKind
  | cel
  | plp
  | umi
  | variant
deriving DecidableEq

/-- Existence flags of the four destination files at one point in time. -/
structure FSFlags where
  celExists : Bool
  plpExists : Bool
  umiExists : Bool
  varExists : Bool

/-- The shard contents discovered for the four table kinds. -/
structure MergeInputs where
  celShards : List (List CelRow)
  plpShards : List (List PlpRow)
  umiShards : List (List Line)
  varShards : List VarShard

/-- Outcome of one driver run: process exit status, destinations reported as
already existing by the upfront check, and what each procedure left at its
destination file (`none` = the file was not created). -/
structure RunResult where
  exitCode : Nat
  reported : List TableKind
  celWritten : Option (List CelFullRow)
  plpWritten : Option (List PlpOutRow)
  umiWritten : Option (List Line)
  varWritten : Option String

/-- Which flag the upfront check consults for each table kind. -/
def kindExists (f : FSFlags) : TableKind → Bool
  | TableKind.cel => f.celExists
  | TableKind.plp => f.plpExists
  | TableKind.umi => f.umiExists
  | TableKind.variant => f.varExists

/-- The destinations reported by the upfront check of `main`, in check
order. -/
def upfrontReports (f : FSFlags) : List TableKind :=
  (if f.celExists then [TableKind.cel] else []) ++
  (if f.plpExists then [TableKind.plp] else []) ++
  (if f.umiExists then [TableKind.umi] else []) ++
  (if f.varExists then [TableKind.variant] else [])

/-- The driver `main`.  `up` holds the destination-existence flags seen by the
upfront check, `atc` those seen by each procedure's own re-check (the file
system may change in between).  An uncaught exception (empty droplet
concatenation, UMI `IndexError` mid-stream, variant assertion failure)
terminates the process with exit status 1; the boolean results of the PLP,
UMI and variant procedures are discarded, and only a droplet-merge `None`
triggers an explicit `sys.exit(1)`. -/
def mainRun (up atc : FSFlags) (inp : MergeInputs) : RunResult :=
  if up.celExists || up.plpExists || up.umiExists || up.varExists then
    ⟨1, upfrontReports up, none, none, none, none⟩
  else
    match write_popscle_pileup_cel atc.celExists inp.celShards with
    | Except.error _ => ⟨1, [], none, none, none, none⟩
    | Except.ok none => ⟨1, [TableKind.cel], none, none, none, none⟩
    | Except.ok (some df) =>
      let plpOut := write_popscle_pileup_plp atc.plpExists df inp.plpShards
      match write_popscle_pileup_umi atc.umiExists inp.umiShards with
      | none =>
        match write_popscle_pileup_var atc.varExists inp.varShards with
        | Except.error _ => ⟨1, [], some df, plpOut, none, none⟩
        | Except.ok (_, w) => ⟨0, [], some df, plpOut, none, w⟩
      | some (lines, ok) =>
        if ok then
          match write_popscle_pileup_var atc.varExists inp.varShards with
          | Except.error _ => ⟨1, [], some df, plpOut, some lines, none⟩
          | Except.ok (_, w) => ⟨0, [], some df, plpOut, some lines, w⟩
        else ⟨1, [], some df, plpOut, some lines, none⟩

/-- C6: when at least one destination file already exists, the driver exits
with status 1 before performing any merge work, writes nothing (so nothing is
overwritten), and reports exactly the offending destinations. -/
theorem main_upfront_guard (up atc : FSFlags) (inp : MergeInputs)
    (h : (up.celExists || up.plpExists || up.umiExists || up.varExists) = true) :
    (mainRun up atc inp).exitCode = 1 ∧
    (mainRun up atc inp).celWritten = none ∧
    (mainRun up atc inp).plpWritten = none ∧
    (mainRun up atc inp).umiWritten = none ∧
    (mainRun up atc inp).varWritten = none ∧
    (∀ k, k ∈ (mainRun up atc inp).reported ↔ kindExists up k = true) ∧
    (mainRun up atc inp).reported ≠ [] := by
  have hrun : mainRun up atc inp = ⟨1, upfrontReports up, none, none, none, none⟩ := by
    unfold mainRun
    rw [if_pos h]
  rw [hrun]
  obtain ⟨a, b, c, d⟩ := up
  refine ⟨rfl, rfl, rfl, rfl, rfl, fun k => ?_, ?_⟩
  · cases a <;> cases b <;> cases c <;> cases d <;> cases k <;> decide
  · revert h
    cases a <;> cases b <;> cases c <;> cases d <;> decide

/-- Witness for `main_upfront_guard` with the CEL and VAR destinations already
present. -/
theorem main_upfront_guard_witness :
    (mainRun ⟨true, false, false, true⟩ ⟨false, false, false, false⟩
        ⟨[], [], [], []⟩).exitCode = 1 ∧
    (mainRun ⟨true, false, false, true⟩ ⟨false, false, false, false⟩
        ⟨[], [], [], []⟩).celWritten = none ∧
    (mainRun ⟨true, false, false, true⟩ ⟨false, false, false, false⟩
        ⟨[], [], [], []⟩).plpWritten = none ∧
    (mainRun ⟨true, false, false, true⟩ ⟨false, false, false, false⟩
        ⟨[], [], [], []⟩).umiWritten = none ∧
    (mainRun ⟨true, false, false, true⟩ ⟨false, false, false, false⟩
        ⟨[], [], [], []⟩).varWritten = none ∧
    (∀ k, k ∈ (mainRun ⟨true, false, false, true⟩ ⟨false, false, false, false⟩
        ⟨[], [], [], []⟩).reported ↔ kindExists ⟨true, false, false, true⟩ k = true) ∧
    (mainRun ⟨true, false, false, true⟩ ⟨false, false, false, false⟩
        ⟨[], [], [], []⟩).reported ≠ [] :=
  main_upfront_guard ⟨true, false, false, true⟩ ⟨false, false, false, false⟩
    ⟨[], [], [], []⟩ rfl

/-- C9: after the upfront check passes, the driver's exit status depends only
on the droplet merge: when the droplet merge returns a table the process
exits with status 0 even if the PLP, UMI or variant procedure reports failure
by returning `False` (their results are discarded), and it exits with status
1 exactly when the droplet merge itself fails.  The hypotheses exclude runs
aborted by an uncaught exception in the UMI or variant procedure, which the
claim does not cover. -/
theorem main_discards_results (up atc : FSFlags) (inp : MergeInputs)
    (h1 : (up.celExists || up.plpExists || up.umiExists || up.varExists) = false)
    (h4 : atc.umiExists = true ∨ (umiShardsGo 0 inp.umiShards).2.2 = true)
    (h5 : atc.varExists = true ∨ ∀ e, varPick none inp.varShards ≠ Except.error e) :
    ((atc.celExists = false ∧ inp.celShards ≠ []) →
      (mainRun up atc inp).exitCode = 0) ∧
    ((atc.celExists = true ∨ inp.celShards = []) →
      (mainRun up atc inp).exitCode = 1) := by
  have hneg : ¬ ((up.celExists || up.plpExists || up.umiExists || up.varExists) = true) := by
    simp [h1]
  have hvar : ∃ b w, write_popscle_pileup_var atc.varExists inp.varShards =
      Except.ok (b, w) := by
    cases hev : atc.varExists
    · cases hv : varPick none inp.varShards with
      | error e =>
        rcases h5 with h5 | h5
        · rw [h5] at hev; cases hev
        · exact absurd hv (h5 e)
      | ok o =>
        cases o with
        | none =>
          refine ⟨false, none, ?_⟩
          unfold write_popscle_pileup_var
          rw [if_neg (by simp [hev]), hv]
        | some w =>
          refine ⟨true, some w.raw, ?_⟩
          unfold write_popscle_pileup_var
          rw [if_neg (by simp [hev]), hv]
    · exact ⟨false, none, by simp [write_popscle_pileup_var, hev]⟩
  obtain ⟨b, w, hvar⟩ := hvar
  constructor
  · rintro ⟨h2, h3⟩
    have hcel : write_popscle_pileup_cel atc.celExists inp.celShards =
        Except.ok (some (stampFrom 0 (tagShards 0 inp.celShards))) := by
      rw [h2]
      cases hcs : inp.celShards with
      | nil => exact absurd hcs h3
      | cons s t => rfl
    unfold mainRun
    rw [if_neg hneg, hcel]
    cases heu : atc.umiExists
    · have humi : write_popscle_pileup_umi false inp.umiShards =
          some ((umiShardsGo 0 inp.umiShards).1, true) := by
        rcases h4 with h4 | h4
        · rw [h4] at heu; cases heu
        · simp [write_popscle_pileup_umi, h4]
      rw [humi, hvar]
      rfl
    · have humi : write_popscle_pileup_umi true inp.umiShards = none := rfl
      rw [humi, hvar]
  · intro hor
    unfold mainRun
    rw [if_neg hneg]
    rcases hor with h2 | h2
    · have hcel : write_popscle_pileup_cel atc.celExists inp.celShards =
          Except.ok none := by
        rw [h2]; rfl
      rw [hcel]
    · cases hec : atc.celExists
      · have hcel : write_popscle_pileup_cel false inp.celShards =
            Except.error "cannot concat empty list" := by
          rw [h2]; rfl
        rw [hcel]
      · have hcel : write_popscle_pileup_cel true inp.celShards =
            Except.ok none := rfl
        rw [hcel]

/-- Witness for `main_discards_results`: the PLP and VAR destinations appear
after the upfront check (both procedures return `False`), yet the process
exits with status 0. -/
theorem main_discards_results_witness :
    (mainRun ⟨false, false, false, false⟩ ⟨false, true, false, true⟩
        ⟨[[sampleCelRow 0 "AAA"]], [], [], []⟩).exitCode = 0 :=
  (main_discards_results ⟨false, false, false, false⟩ ⟨false, true, false, true⟩
    ⟨[[sampleCelRow 0 "AAA"]], [], [], []⟩ rfl (Or.inr rfl) (Or.inl rfl)).1
    ⟨rfl, by decide⟩

/-- C5 counterexample: with zero discovered droplet shards, the droplet merge
does not produce an empty output — `pl.concat([])` raises an uncaught
`ValueError`, failing the run. -/
theorem zero_shards_cel_fails :
    write_popscle_pileup_cel false ([] : List (List CelRow)) =
      Except.error "cannot concat empty list" := rfl

/-- C5 amended: zero discovered shards is harmless for the SNP, UMI and
variant kinds (the PLP and UMI merges produce empty outputs, the variant
reconciliation produces no output and reports failure without copying), but
the droplet merge with zero shards aborts the run with an uncaught error from
concatenating an empty list of tables. -/
theorem zero_shards_amended :
    (∀ cel : List CelFullRow, write_popscle_pileup_plp false cel [] = some []) ∧
    write_popscle_pileup_umi false ([] : List (List Line)) = some ([], true) ∧
    write_popscle_pileup_var false ([] : List VarShard) = Except.ok (false, none) ∧
    ∃ e, write_popscle_pileup_cel false ([] : List (List CelRow)) =
      Except.error e :=
  ⟨fun _ => rfl, rfl, rfl, "cannot concat empty list", rfl⟩

end PopscleMerge
